import Mathlib

/-!
Verification of the ScrollLend client layer.

The repository has two source components:
* `EthersLendingBorrowingContract` — an adapter class that wraps a deployed
  lending/borrowing contract, converting between decimal strings and 10^18
  fixed-point integers with ethers v6 `parseUnits` / `formatUnits`, and
  dispatching reads, transactions, and event-log queries;
* `useHealthFactor` — a React hook that publishes the account's health
  factor to UI state.

The embedding below translates these into Lean.  Asynchronous external
calls (contract reads, transaction submission, `tx.wait()`) are modelled as
explicit `Except JsError` values or functions passed in as parameters; a
JavaScript `throw`/rejected promise is the `.error` case.  The ethers v6
numeric conversions are translated from `FixedNumber.fromString` /
`FixedNumber.fromValue(...).toString()` with a fixed format
`{ decimals, width := 512 }`, which is exactly what `parseUnits`/
`formatUnits` use.  JavaScript arbitrary-precision `bigint` is `Int`;
the few places where a `bigint` is narrowed to a JS `number` are noted at
their definitions together with the exact range of that conversion.
-/

namespace ScrollLend

/-! ### Decimal digit strings

`BigInt.toString` renders a nonnegative bigint as its base-10 digit string
with no leading zeros; `BigInt(s)` reads a digit string (leading zeros
allowed).  `natOfDigits`/`natToDigits` are those two operations on
`List Char`.  `natToDigits` is written with a bounded digit count (enough
for every value below 10^200, far above the 2^512 range ethers enforces)
so that it is structurally recursive and evaluates inside the kernel; the
theorems `natOfDigits_natToDigits` and `natToDigits_all_digits` pin its
semantics to the base-10 rendering. -/

def isDigitChar (c : Char) : Bool := 48 ≤ c.toNat && c.toNat ≤ 57

def charToDigit (c : Char) : Nat := c.toNat - 48

def natOfDigits (l : List Char) : Nat :=
  l.foldl (fun acc c => 10 * acc + charToDigit c) 0

def digitChar : Nat → Char
  | 0 => '0'
  | 1 => '1'
  | 2 => '2'
  | 3 => '3'
  | 4 => '4'
  | 5 => '5'
  | 6 => '6'
  | 7 => '7'
  | 8 => '8'
  | _ => '9'

def numDigits (n : Nat) : Nat :=
  1 + (List.range 200).countP fun i => 10 ^ (i + 1) ≤ n

def natToDigits (n : Nat) : List Char :=
  (List.range (numDigits n)).reverse.map fun i => digitChar (n / 10 ^ i % 10)

/-! ### ethers v6 fixed-point conversions

`parseUnits(value, 18)` is `FixedNumber.fromString(value, { decimals := 18,
width := 512 }).value`: the string must match `^(-?)([0-9]*)\.?([0-9]*)$`
with at least one digit; the fractional part is zero-padded to 18 digits
and must not be longer than 18 (otherwise ethers throws "too many decimals
for format"); the result must fit in a signed 512-bit range (otherwise
ethers throws "overflow").  Failure is `none` here; the adapter-level
wrapper `parseUnitsE` turns it into a thrown `JsError`.

`formatUnits(value, decimals)` is
`FixedNumber.fromValue(value, decimals, { decimals, width := 512 })
.toString()`: after the same signed 512-bit range check, the absolute
value's digit string is zero-padded on the left until it is longer than
`decimals`, a '.' is inserted `decimals` places from the right, and
trailing fractional zeros are stripped leaving at least one fractional
digit; with `decimals = 0` the plain digit string is returned. -/

def fixedWidthBound : Int := 2 ^ 511

def stripTrailingZeros (l : List Char) : List Char :=
  match l.reverse.dropWhile (fun c => c = '0') with
  | [] => ['0']
  | t => t.reverse

def padWhole (decimals : Nat) (l : List Char) : List Char :=
  List.replicate (decimals + 1 - l.length) '0' ++ l

def formatFixedDigits (decimals : Nat) (m : Nat) : List Char :=
  if decimals = 0 then natToDigits m
  else
    let s := padWhole decimals (natToDigits m)
    let idx := s.length - decimals
    s.take idx ++ '.' :: stripTrailingZeros (s.drop idx)

def formatUnits (decimals : Nat) (n : Int) : Option String :=
  if -fixedWidthBound ≤ n ∧ n < fixedWidthBound then
    some (String.mk ((if n < 0 then ['-'] else []) ++ formatFixedDigits decimals n.natAbs))
  else none

def splitSign (cs : List Char) : Bool × List Char :=
  match cs with
  | [] => (false, [])
  | c :: rest => if c = '-' then (true, rest) else (false, c :: rest)

def matchDecimal (s : String) : Option (Bool × List Char × List Char) :=
  let p := splitSign s.data
  let whole := p.2.takeWhile isDigitChar
  match p.2.dropWhile isDigitChar with
  | [] => some (p.1, whole, [])
  | c :: rest =>
    if c = '.' && rest.all isDigitChar then some (p.1, whole, rest) else none

def parseUnits (s : String) : Option Int :=
  match matchDecimal s with
  | none => none
  | some (neg, whole, dec) =>
    if whole.length + dec.length = 0 then none
    else if 18 < dec.length then none
    else
      let mag : Nat := natOfDigits (whole ++ dec ++ List.replicate (18 - dec.length) '0')
      let v : Int := if neg then -(mag : Int) else (mag : Int)
      if -fixedWidthBound ≤ v ∧ v < fixedWidthBound then some v else none

/-! ### JavaScript exceptions and the adapter

`JsError` stands for the JavaScript exception values that can cross the
adapter's boundaries: `numericFault` for the errors ethers' numeric
conversions throw (invalid value / too many decimals / overflow), and
`callFailed` for a failed external interaction (RPC failure, revert,
rejected provider promise), carrying an opaque code. -/

inductive JsError where
  | numericFault (value : String) : JsError
  | callFailed (code : Nat) : JsError
deriving DecidableEq, Repr

def liftOpt {α : Type} (o : Option α) (e : JsError) : Except JsError α :=
  match o with
  | some a => .ok a
  | none => .error e

def parseUnitsE (s : String) : Except JsError Int :=
  liftOpt (parseUnits s) (.numericFault s)

def formatUnitsE (decimals : Nat) (n : Int) : Except JsError String :=
  liftOpt (formatUnits decimals n) (.numericFault (toString n))

def jsTry {α : Type} (body : Except JsError α) (handler : JsError → Except JsError α) :
    Except JsError α :=
  match body with
  | .ok a => .ok a
  | .error e => handler e

/-! ### The adapter's read methods

`async getAssetValueInUSD(token, amount)` awaits
`this.contract.getAssetValueInUSD(token, parseUnits(amount, 18))` and
returns `formatUnits(valueInUSD, 18)`.  The external contract read is the
parameter `call`; the other `formatUnits`-returning reads
(`collateralDeposited`, `getUserTotalBorrowed`, ..., `treasury`,
`getTotalValueLocked`) share the shape of `readScaled`. -/

def getAssetValueInUSD (call : String → Int → Except JsError Int)
    (token amount : String) : Except JsError String := do
  let units ← parseUnitsE amount
  let valueInUSD ← call token units
  formatUnitsE 18 valueInUSD

def readScaled (call : Except JsError Int) : Except JsError String := do
  let amount ← call
  formatUnitsE 18 amount

/-- `async checkForBrokenHealthFactor(user)` awaits
`this.contract.checkForBrokenHealthFactor(user)` inside `try`, returning
`true` on success; the `catch` returns `false`.  The probe call is the
parameter. -/
def checkForBrokenHealthFactor (call : Except JsError Unit) : Except JsError Bool :=
  jsTry
    (do
      let _ ← call
      .ok true)
    (fun _ => .ok false)

/-- `async userHealthFactor(user)`: inside `try`, awaits
`this.contract.userHealthFactor(user)` and returns
`formatUnits(healthFactor, 18)`; the `catch` logs and returns `"0"`. -/
def userHealthFactor (call : Except JsError Int) : Except JsError String :=
  jsTry
    (do
      let healthFactor ← call
      formatUnitsE 18 healthFactor)
    (fun _ => .ok "0")

/-! ### getLiquidityPool

`async getLiquidityPool(user, token)` awaits
`this.contract.liquidityPool(user, token)` (a struct of three bigints) and
returns `{ amount: formatUnits(liquidity.amount, 18), withdrawalTime:
Number(formatUnits(liquidity.withdrawalTime, 0)), addedAt:
Number(formatUnits(liquidity.addedAt, 0)) }`.  `formatUnits(x, 0)` is the
plain digit string of `x` (with sign), and JS `Number` on such a string is
the exact integer whenever its magnitude is below 2^53;
`jsNumberOfIntString` models that exact regime, which covers every
realistic timestamp. -/

structure LiquidityPosition where
  amount : String
  withdrawalTime : Int
  addedAt : Int
deriving DecidableEq, Repr

def jsNumberOfIntString (s : String) : Int :=
  match s.data with
  | '-' :: ds => -(natOfDigits ds : Int)
  | ds => (natOfDigits ds : Int)

def getLiquidityPool (call : Except JsError (Int × Int × Int)) :
    Except JsError LiquidityPosition := do
  let liquidity ← call
  let a ← formatUnitsE 18 liquidity.1
  let w ← formatUnitsE 0 liquidity.2.1
  let d ← formatUnitsE 0 liquidity.2.2
  .ok { amount := a, withdrawalTime := jsNumberOfIntString w, addedAt := jsNumberOfIntString d }

/-! ### State-changing operations

Each awaits a contract method (amount arguments first going through
`parseUnits(amount, 18)`), receives a transaction response `tx`, then
awaits `tx.wait()` and resolves with no value.  The contract method and
`tx.wait` are the parameters `call`/`wait`; `Tx` is the opaque transaction
response type. -/

def submitAndWait {Tx : Type} (submit : Except JsError Tx)
    (wait : Tx → Except JsError Unit) : Except JsError Unit := do
  let tx ← submit
  wait tx

def depositCollateral {Tx : Type} (call : String → Int → Except JsError Tx)
    (wait : Tx → Except JsError Unit) (token amount : String) : Except JsError Unit := do
  let units ← parseUnitsE amount
  let tx ← call token units
  wait tx

def borrowAsset {Tx : Type} (call : String → Int → Int → Except JsError Tx)
    (wait : Tx → Except JsError Unit) (token amount : String)
    (repaymentTimestamp : Int) : Except JsError Unit := do
  let units ← parseUnitsE amount
  let tx ← call token units repaymentTimestamp
  wait tx

def withdrawCollateralDeposited {Tx : Type} (call : String → Except JsError Tx)
    (wait : Tx → Except JsError Unit) (token : String) : Except JsError Unit := do
  let tx ← call token
  wait tx

def repayLoan {Tx : Type} (call : String → Int → Except JsError Tx)
    (wait : Tx → Except JsError Unit) (token amount : String) : Except JsError Unit := do
  let units ← parseUnitsE amount
  let tx ← call token units
  wait tx

def liquidatePosition {Tx : Type}
    (call : String → String → String → Int → Except JsError Tx)
    (wait : Tx → Except JsError Unit)
    (userToLiquidate borrowedAsset collateralAsset amount : String) : Except JsError Unit := do
  let units ← parseUnitsE amount
  let tx ← call userToLiquidate borrowedAsset collateralAsset units
  wait tx

def addLiquidity {Tx : Type} (call : String → Int → Int → Except JsError Tx)
    (wait : Tx → Except JsError Unit) (token amount : String)
    (withdrawalTime : Int) : Except JsError Unit := do
  let units ← parseUnitsE amount
  let tx ← call token units withdrawalTime
  wait tx

def withdrawFromLiquidityPool {Tx : Type} (call : String → Except JsError Tx)
    (wait : Tx → Except JsError Unit) (token : String) : Except JsError Unit := do
  let tx ← call token
  wait tx

def rebalancePortfolio {Tx : Type} (call : String → String → Int → Except JsError Tx)
    (wait : Tx → Except JsError Unit) (swapFrom swapTo amount : String) : Except JsError Unit := do
  let units ← parseUnitsE amount
  let tx ← call swapFrom swapTo units
  wait tx

def transferOwnership {Tx : Type} (call : String → Except JsError Tx)
    (wait : Tx → Except JsError Unit) (newOwner : String) : Except JsError Unit := do
  let tx ← call newOwner
  wait tx

def acceptOwnership {Tx : Type} (call : Except JsError Tx)
    (wait : Tx → Except JsError Unit) : Except JsError Unit := do
  let tx ← call
  wait tx

/-! ### queryFilterEventByAccount

The method fetches the matching logs, then for each `log` inside a `try`
runs `this.contractJsonRPC.interface.parseLog(log)`; a `null` parse is
warned about and mapped to `null`, a successful parse is turned into
`{ user, token, amount: formatUnits(args.amount, 18), timeStamp:
Number(args.timeStamp) * 1000, eventName }`, and any exception in the
block (a throw from `parseLog`, or from `formatUnits` on an out-of-range
amount) is caught and mapped to `null`; finally the `null`s are filtered
out.  `parseLog`'s three observable outcomes are modelled by
`ParseLogResult`; `Number(args.timeStamp) * 1000` is exact integer
arithmetic whenever `args.timeStamp * 1000` is below 2^53, which covers
every on-chain timestamp, and is modelled as exact multiplication. -/

structure ParsedArgs where
  user : String
  token : String
  amount : Int
  timeStamp : Int
deriving DecidableEq, Repr

inductive ParseLogResult where
  | ok (args : ParsedArgs) : ParseLogResult
  | nullResult : ParseLogResult
  | throws : ParseLogResult
deriving DecidableEq, Repr

structure Events where
  user : String
  token : String
  amount : String
  timeStamp : Int
  eventName : String
deriving DecidableEq, Repr

def decodeLogEntry {Log : Type} (parseLog : Log → ParseLogResult)
    (eventName : String) (log : Log) : Option Events :=
  match parseLog log with
  | .ok args =>
    match formatUnits 18 args.amount with
    | some formattedAmount =>
      some { user := args.user, token := args.token, amount := formattedAmount,
             timeStamp := args.timeStamp * 1000, eventName := eventName }
    | none => none
  | .nullResult => none
  | .throws => none

def queryFilterEventByAccount {Log : Type} (parseLog : Log → ParseLogResult)
    (eventName : String) (logs : List Log) : List Events :=
  (logs.map (decodeLogEntry parseLog eventName)).filterMap id

/-! ### The useHealthFactor hook

`useHealthFactor` holds `healthFactor : string | null` state initialised
to `null`.  Its effect runs whenever the `(contract, account)` identity
changes: if `!contract || !account` it returns without calling (note a JS
empty-string account is falsy too); otherwise it awaits
`contract.userHealthFactor(account)` and on success publishes the result
with `setHealthFactor`, while a failure is only logged, leaving the state
untouched.  One effect run is `useHealthFactorStep`; `runHook` folds a
sequence of runs from the initial state.  The step returns the pair
(whether a read was issued, the state after the run). -/

structure HookInput (C : Type) where
  contract : Option C
  account : Option String
  read : C → String → Except JsError String

def useHealthFactorStep {C : Type} (inp : HookInput C) (prev : Option String) :
    Bool × Option String :=
  match inp.contract, inp.account with
  | some c, some a =>
    if a = "" then (false, prev)
    else
      match inp.read c a with
      | .ok factor => (true, some factor)
      | .error _ => (true, prev)
  | _, _ => (false, prev)

def hookInitialState : Option String := none

def runHook {C : Type} (inputs : List (HookInput C)) : Option String :=
  inputs.foldl (fun st inp => (useHealthFactorStep inp st).2) hookInitialState

/-! ## Digit-string lemmas -/

theorem natOfDigits_foldl (l : List Char) (a : Nat) :
    l.foldl (fun acc c => 10 * acc + charToDigit c) a = a * 10 ^ l.length + natOfDigits l := by
  induction l generalizing a with
  | nil => simp [natOfDigits]
  | cons c t ih =>
    simp only [List.foldl_cons, natOfDigits, List.length_cons]
    rw [ih (10 * a + charToDigit c), ih (10 * 0 + charToDigit c)]
    ring

theorem natOfDigits_cons (c : Char) (l : List Char) :
    natOfDigits (c :: l) = charToDigit c * 10 ^ l.length + natOfDigits l := by
  have h := natOfDigits_foldl l (10 * 0 + charToDigit c)
  simpa [natOfDigits] using h

theorem natOfDigits_append (l₁ l₂ : List Char) :
    natOfDigits (l₁ ++ l₂) = natOfDigits l₁ * 10 ^ l₂.length + natOfDigits l₂ := by
  simp only [natOfDigits, List.foldl_append]
  rw [show l₂.foldl (fun acc c => 10 * acc + charToDigit c)
        (l₁.foldl (fun acc c => 10 * acc + charToDigit c) 0)
      = _ from natOfDigits_foldl l₂ _]
  rfl

theorem natOfDigits_replicate_zero (k : Nat) :
    natOfDigits (List.replicate k '0') = 0 := by
  induction k with
  | zero => rfl
  | succ k ih =>
    rw [List.replicate_succ, natOfDigits_cons, ih]
    simp [show charToDigit '0' = 0 from rfl]

theorem natOfDigits_append_zeros (l : List Char) (k : Nat) :
    natOfDigits (l ++ List.replicate k '0') = natOfDigits l * 10 ^ k := by
  rw [natOfDigits_append, natOfDigits_replicate_zero, List.length_replicate]
  simp

theorem natOfDigits_zeros_append (l : List Char) (k : Nat) :
    natOfDigits (List.replicate k '0' ++ l) = natOfDigits l := by
  rw [natOfDigits_append, natOfDigits_replicate_zero]
  simp

theorem charToDigit_digitChar {m : Nat} (h : m < 10) : charToDigit (digitChar m) = m := by
  interval_cases m <;> rfl

theorem isDigitChar_digitChar {m : Nat} (h : m < 10) : isDigitChar (digitChar m) = true := by
  interval_cases m <;> rfl

theorem isDigitChar_ne_dot {c : Char} (h : isDigitChar c = true) : c ≠ '.' := by
  rintro rfl
  exact absurd h (by decide)

theorem isDigitChar_ne_dash {c : Char} (h : isDigitChar c = true) : c ≠ '-' := by
  rintro rfl
  exact absurd h (by decide)

theorem lt_pow_numDigits {n : Nat} (h : n < 10 ^ 200) : n < 10 ^ numDigits n := by
  by_contra hc
  push_neg at hc
  set p : Nat → Bool := fun i => decide (10 ^ (i + 1) ≤ n) with hp
  set c : Nat := (List.range 200).countP p with hcdef
  have hnum : numDigits n = 1 + c := rfl
  have hcle : c ≤ 200 := le_trans (List.countP_le_length p) (by simp)
  rcases eq_or_lt_of_le hcle with h200 | h200
  · rw [hnum, h200] at hc
    have h1 : (10 : Nat) ^ 200 ≤ 10 ^ (1 + 200) := Nat.pow_le_pow_right (by norm_num) (by omega)
    omega
  · have h1 : ∀ i ∈ List.range (c + 1), p i = true := by
      intro i hi
      rw [List.mem_range] at hi
      have : (10 : Nat) ^ (i + 1) ≤ 10 ^ (c + 1) := Nat.pow_le_pow_right (by norm_num) (by omega)
      have h2 : (10 : Nat) ^ (c + 1) ≤ n := by rw [hnum] at hc; rwa [Nat.add_comm 1 c] at hc
      simp only [hp, decide_eq_true_eq]
      omega
    have h2 : (List.range (c + 1)).countP p = c + 1 := by
      rw [List.countP_eq_length.mpr h1, List.length_range]
    have hsubl : List.Sublist (List.range (c + 1)) (List.range 200) :=
      List.range_sublist.mpr (by omega)
    have h3 : (List.range (c + 1)).countP p ≤ (List.range 200).countP p :=
      List.Sublist.countP_le p hsubl
    omega

theorem natToDigits_all_digits {n : Nat} : ∀ c ∈ natToDigits n, isDigitChar c = true := by
  intro c hc
  simp only [natToDigits, List.mem_map, List.mem_reverse, List.mem_range] at hc
  obtain ⟨i, _, rfl⟩ := hc
  exact isDigitChar_digitChar (Nat.mod_lt _ (by norm_num))

theorem natOfDigits_rangeDigits (n k : Nat) :
    natOfDigits ((List.range k).reverse.map fun i => digitChar (n / 10 ^ i % 10)) = n % 10 ^ k := by
  induction k with
  | zero => simp [natOfDigits, Nat.mod_one]
  | succ k ih =>
    rw [List.range_succ, List.reverse_append, List.map_append]
    simp only [List.reverse_singleton, List.map_cons, List.map_nil, List.singleton_append]
    rw [natOfDigits_cons, ih, charToDigit_digitChar (Nat.mod_lt _ (by norm_num))]
    rw [List.length_map, List.length_reverse, List.length_range]
    rw [pow_succ, Nat.mod_mul]
    ring

theorem natOfDigits_natToDigits {n : Nat} (h : n < 10 ^ 200) :
    natOfDigits (natToDigits n) = n := by
  rw [natToDigits, natOfDigits_rangeDigits, Nat.mod_eq_of_lt (lt_pow_numDigits h)]

theorem stripTrailingZeros_spec (l : List Char) (h : l ≠ []) :
    ∃ k, l = stripTrailingZeros l ++ List.replicate k '0' := by
  unfold stripTrailingZeros
  rcases hd : l.reverse.dropWhile (fun c => c = '0') with _ | ⟨a, t⟩
  · have hrev : l.reverse = l.reverse.takeWhile (fun c => c = '0') := by
      conv_lhs => rw [← List.takeWhile_append_dropWhile (fun c => c = '0') l.reverse]
      rw [hd, List.append_nil]
    have hall : ∀ c ∈ l, c = '0' := by
      intro c hc
      have hmem : c ∈ l.reverse.takeWhile (fun c => c = '0') := by
        rw [← hrev]; exact List.mem_reverse.mpr hc
      simpa using List.mem_takeWhile_imp hmem
    have hl : l = List.replicate l.length '0' := List.eq_replicate_of_mem hall
    refine ⟨l.length - 1, ?_⟩
    rcases hlen : l.length with _ | m
    · exact absurd (List.length_eq_zero.mp hlen) h
    · rw [hl, hlen]
      simp [List.replicate_succ]
  · refine ⟨(l.reverse.takeWhile (fun c => c = '0')).length, ?_⟩
    have htw : ∀ c ∈ l.reverse.takeWhile (fun c => c = '0'), c = '0' := by
      intro c hc
      simpa using List.mem_takeWhile_imp hc
    have hrepl : l.reverse.takeWhile (fun c => c = '0')
        = List.replicate (l.reverse.takeWhile (fun c => c = '0')).length '0' :=
      List.eq_replicate_of_mem htw
    conv_lhs => rw [← List.reverse_reverse l,
      ← List.takeWhile_append_dropWhile (fun c => c = '0') l.reverse]
    rw [hd, List.reverse_append]
    conv_lhs => rw [hrepl]
    rw [List.reverse_replicate]

theorem stripTrailingZeros_ne_nil (l : List Char) : stripTrailingZeros l ≠ [] := by
  unfold stripTrailingZeros
  rcases hd : l.reverse.dropWhile (fun c => c = '0') with _ | ⟨a, t⟩
  · simp
  · simp

theorem stripTrailingZeros_mem {l : List Char} {c : Char}
    (hc : c ∈ stripTrailingZeros l) : c ∈ l ∨ c = '0' := by
  revert hc
  unfold stripTrailingZeros
  rcases hd : l.reverse.dropWhile (fun c => c = '0') with _ | ⟨a, t⟩
  · intro hc
    right
    simpa using hc
  · intro hc
    left
    rw [List.mem_reverse] at hc
    have hsub : List.Sublist (a :: t) l.reverse :=
      hd ▸ List.dropWhile_sublist (fun c => c = '0')
    exact List.mem_reverse.mp (hsub.mem hc)

theorem takeWhile_all_append {p : Char → Bool} {w r : List Char} {x : Char}
    (hw : ∀ c ∈ w, p c = true) (hx : p x = false) :
    (w ++ x :: r).takeWhile p = w ∧ (w ++ x :: r).dropWhile p = x :: r := by
  induction w with
  | nil =>
    constructor
    · rw [List.nil_append, List.takeWhile_cons_of_neg (by simp [hx])]
    · rw [List.nil_append, List.dropWhile_cons_of_neg (by simp [hx])]
  | cons c cs ih =>
    have hc : p c = true := hw c (List.mem_cons_self c cs)
    have ih2 := ih fun d hd => hw d (List.mem_cons_of_mem c hd)
    constructor
    · simp only [List.cons_append, List.takeWhile_cons, hc, if_true]
      rw [ih2.1]
    · simp only [List.cons_append, List.dropWhile_cons, hc, if_true]
      exact ih2.2

/-! ## Round-trip lemmas: parsing back a formatted fixed-point value -/

theorem data_mk (l : List Char) : (String.mk l).data = l := rfl

theorem splitSign_dash (cs : List Char) : splitSign ('-' :: cs) = (true, cs) := by
  simp [splitSign]

theorem splitSign_no_dash {c : Char} (cs : List Char) (h : c ≠ '-') :
    splitSign (c :: cs) = (false, c :: cs) := by
  simp [splitSign, h]

theorem matchDecimal_core {w f : List Char}
    (hwd : ∀ c ∈ w, isDigitChar c = true) :
    (w ++ '.' :: f).takeWhile isDigitChar = w ∧
      (w ++ '.' :: f).dropWhile isDigitChar = '.' :: f :=
  takeWhile_all_append hwd (by decide)

theorem matchDecimal_pos {w f : List Char} (hw : w ≠ [])
    (hwd : ∀ c ∈ w, isDigitChar c = true) (hfd : ∀ c ∈ f, isDigitChar c = true) :
    matchDecimal (String.mk (w ++ '.' :: f)) = some (false, w, f) := by
  obtain ⟨htake, hdrop⟩ := matchDecimal_core (f := f) hwd
  rcases w with _ | ⟨c, cs⟩
  · exact absurd rfl hw
  · have hc : isDigitChar c = true := hwd c (List.mem_cons_self c cs)
    simp only [matchDecimal, data_mk, List.cons_append,
      splitSign_no_dash _ (isDigitChar_ne_dash hc)]
    simp only [List.cons_append] at htake hdrop
    rw [hdrop]
    simp [htake, List.all_eq_true.mpr hfd]

theorem matchDecimal_neg {w f : List Char}
    (hwd : ∀ c ∈ w, isDigitChar c = true) (hfd : ∀ c ∈ f, isDigitChar c = true) :
    matchDecimal (String.mk ('-' :: (w ++ '.' :: f))) = some (true, w, f) := by
  obtain ⟨htake, hdrop⟩ := matchDecimal_core (f := f) hwd
  simp only [matchDecimal, data_mk, splitSign_dash]
  rw [hdrop]
  simp [htake, List.all_eq_true.mpr hfd]

theorem parseUnits_eq_of_match {s : String} {neg : Bool} {w f : List Char} {v : Int}
    (hmd : matchDecimal s = some (neg, w, f)) (hwne : w ≠ []) (hf : f.length ≤ 18)
    (hv : (if neg then -(natOfDigits (w ++ f ++ List.replicate (18 - f.length) '0') : Int)
           else (natOfDigits (w ++ f ++ List.replicate (18 - f.length) '0') : Int)) = v)
    (h1 : -fixedWidthBound ≤ v) (h2 : v < fixedWidthBound) :
    parseUnits s = some v := by
  have hlw : ¬ w.length + f.length = 0 := by
    rcases w with _ | ⟨c, cs⟩
    · exact absurd rfl hwne
    · simp
  simp only [parseUnits, hmd]
  rw [if_neg hlw, if_neg (by omega : ¬ 18 < f.length), hv, if_pos ⟨h1, h2⟩]

theorem parseUnits_formatUnits {n : Int}
    (h1 : -fixedWidthBound ≤ n) (h2 : n < fixedWidthBound) :
    ∃ s, formatUnits 18 n = some s ∧ parseUnits s = some n := by
  set m : Nat := n.natAbs with hm
  have hmle : (m : Int) ≤ fixedWidthBound := by omega
  have hmle2 : (m : Int) ≤ ((2 ^ 511 : Nat) : Int) := by
    refine le_trans hmle ?_
    show (2 : Int) ^ 511 ≤ ((2 ^ 511 : Nat) : Int)
    rw [Nat.cast_pow, Nat.cast_ofNat]
  have hm511 : m ≤ 2 ^ 511 := by exact_mod_cast hmle2
  have hm200 : m < 10 ^ 200 := lt_of_le_of_lt hm511 (by norm_num)
  set S : List Char := padWhole 18 (natToDigits m) with hS
  have hlenS : 19 ≤ S.length := by
    rw [hS, padWhole, List.length_append, List.length_replicate]
    omega
  have hSd : ∀ c ∈ S, isDigitChar c = true := by
    intro c hc
    rw [hS, padWhole, List.mem_append] at hc
    rcases hc with hc | hc
    · rw [List.eq_of_mem_replicate hc]; decide
    · exact natToDigits_all_digits c hc
  set idx : Nat := S.length - 18 with hidx
  set w : List Char := S.take idx with hw
  have hwlen : w.length = idx := by
    rw [hw, List.length_take]
    omega
  have hwne : w ≠ [] := by
    have : 0 < w.length := by omega
    exact List.length_pos.mp this
  have hwd : ∀ c ∈ w, isDigitChar c = true := fun c hc => hSd c (List.mem_of_mem_take hc)
  have hdroplen : (S.drop idx).length = 18 := by
    rw [List.length_drop]
    omega
  have hdropne : S.drop idx ≠ [] := by
    intro hcon
    rw [hcon] at hdroplen
    simp at hdroplen
  set f : List Char := stripTrailingZeros (S.drop idx) with hf
  obtain ⟨k, hk⟩ := stripTrailingZeros_spec (S.drop idx) hdropne
  rw [← hf] at hk
  have hflen : f.length + k = 18 := by
    have := congrArg List.length hk
    rw [List.length_append, List.length_replicate] at this
    omega
  have hfd : ∀ c ∈ f, isDigitChar c = true := by
    intro c hc
    rcases stripTrailingZeros_mem (hf ▸ hc) with hc' | hc'
    · exact hSd c (List.mem_of_mem_drop hc')
    · rw [hc']; decide
  have hmagS : natOfDigits (w ++ f ++ List.replicate (18 - f.length) '0') = m := by
    have hkval : 18 - f.length = k := by omega
    rw [hkval, List.append_assoc, ← hk, hw, List.take_append_drop, hS, padWhole,
      natOfDigits_zeros_append, natOfDigits_natToDigits hm200]
  have hfmt : formatUnits 18 n
      = some (String.mk ((if n < 0 then ['-'] else []) ++ (w ++ '.' :: f))) := by
    simp only [formatUnits, if_pos (And.intro h1 h2), formatFixedDigits]
    rw [if_neg (by norm_num : ¬ (18 : Nat) = 0)]
  rcases lt_or_le n 0 with hn | hn
  · refine ⟨_, hfmt, ?_⟩
    rw [if_pos hn] at hfmt ⊢
    have hmd : matchDecimal (String.mk ('-' :: (w ++ '.' :: f))) = some (true, w, f) :=
      matchDecimal_neg hwd hfd
    rw [show (['-'] ++ (w ++ '.' :: f)) = '-' :: (w ++ '.' :: f) from rfl]
    refine parseUnits_eq_of_match hmd hwne (by omega) ?_ h1 h2
    rw [if_pos rfl, hmagS]
    omega
  · refine ⟨_, hfmt, ?_⟩
    rw [if_neg (by omega : ¬ n < 0)] at hfmt ⊢
    have hmd : matchDecimal (String.mk (w ++ '.' :: f)) = some (false, w, f) :=
      matchDecimal_pos hwne hwd hfd
    rw [List.nil_append]
    refine parseUnits_eq_of_match hmd hwne (by omega) ?_ h1 h2
    rw [if_neg (by simp : ¬ (false : Bool) = true), hmagS]
    omega

theorem if_some_range {c : Prop} [Decidable c] {v n : Int}
    (h : (if c then some v else none) = some n) : c ∧ n = v := by
  by_cases hc : c
  · rw [if_pos hc] at h
    exact ⟨hc, (Option.some_inj.mp h).symm⟩
  · rw [if_neg hc] at h
    cases h

theorem parseUnits_range {s : String} {n : Int} (h : parseUnits s = some n) :
    -fixedWidthBound ≤ n ∧ n < fixedWidthBound := by
  rcases hmd : matchDecimal s with _ | ⟨neg, w, f⟩
  · simp [parseUnits, hmd] at h
  · simp only [parseUnits, hmd] at h
    by_cases h0 : w.length + f.length = 0
    · rw [if_pos h0] at h; cases h
    · rw [if_neg h0] at h
      by_cases h18 : 18 < f.length
      · rw [if_pos h18] at h; cases h
      · rw [if_neg h18] at h
        obtain ⟨hr, hn⟩ := if_some_range h
        rw [hn]
        exact hr

/-! ## Claims -/

set_option maxRecDepth 4000 in
/-- Claim C1 counterexample: the round trip is not the string identity the claim
states.  The decimal string "1.50" has 2 (≤ 18) fractional digits, yet scaling
it to fixed point and formatting the (echoed) result back — exactly what
`getAssetValueInUSD` does against a contract that returns its input — yields
"1.5", not "1.50". -/
theorem c1_counterexample :
    getAssetValueInUSD (fun _ v => .ok v) "0xToken" "1.50" = .ok "1.5" ∧
      ("1.5" : String) ≠ "1.50" := by
  constructor
  · rfl
  · decide

/-- Claim C1 (amended): for every decimal string `d` accepted by the scaling
operation (in particular every well-formed decimal with at most 18 fractional
digits in the 512-bit range), converting `d` to the 10^18 fixed-point integer
and formatting that integer back yields a decimal string denoting the same
value — re-scaling the output returns the same fixed-point integer — and it is
what an amount-echoing read returns through the adapter.  The output is the
canonical rendering, so the exact input string is recovered only when `d` is
already canonical (the counterexample "1.50" comes back as "1.5"). -/
theorem c1_roundtrip_value_preserved (d : String) (n : Int)
    (h : parseUnits d = some n) :
    ∃ s, formatUnits 18 n = some s ∧ parseUnits s = some n ∧
      ∀ token : String, getAssetValueInUSD (fun _ v => .ok v) token d = .ok s := by
  obtain ⟨hr1, hr2⟩ := parseUnits_range h
  obtain ⟨s, hs1, hs2⟩ := parseUnits_formatUnits hr1 hr2
  refine ⟨s, hs1, hs2, fun token => ?_⟩
  simp [getAssetValueInUSD, parseUnitsE, h, liftOpt, formatUnitsE, hs1,
    Bind.bind, Except.bind]

set_option maxRecDepth 4000 in
theorem c1_witness :
    ∃ s, formatUnits 18 2500000000000000000 = some s ∧
      parseUnits s = some 2500000000000000000 ∧
      ∀ token : String,
        getAssetValueInUSD (fun _ v => .ok v) token "2.5" = .ok s :=
  c1_roundtrip_value_preserved "2.5" 2500000000000000000 (by decide)

set_option maxRecDepth 4000 in
/-- Claim C5 counterexample: a decimal amount with 19 fractional digits is not
truncated; ethers' scaling operation throws ("too many decimals for format"),
so `parseUnits` yields no value and `depositCollateral` fails with that fault
instead of proceeding with a truncated amount. -/
theorem c5_counterexample :
    parseUnits "0.0000000000000000001" = none ∧
      depositCollateral (fun _ _ => .ok ()) (fun _ => .ok ()) "0xToken"
          "0.0000000000000000001"
        = .error (.numericFault "0.0000000000000000001") := by
  constructor
  · decide
  · rfl

/-- Claim C5 (amended): for every decimal amount string with more than 18
fractional digits, the decimal-to-fixed-point scaling operation rejects the
value (ethers throws "too many decimals for format") rather than truncating
or rounding, so an amount-taking adapter method such as `depositCollateral`
fails with that numeric fault and never proceeds to submit a transaction. -/
theorem c5_excess_precision_rejected {s : String} {neg : Bool} {w dec : List Char}
    (hmd : matchDecimal s = some (neg, w, dec)) (h18 : 18 < dec.length) :
    parseUnits s = none ∧
      ∀ {Tx : Type} (call : String → Int → Except JsError Tx)
        (wait : Tx → Except JsError Unit) (token : String),
        depositCollateral call wait token s = .error (.numericFault s) := by
  have hp : parseUnits s = none := by
    simp only [parseUnits, hmd]
    rw [if_neg (by omega : ¬ w.length + dec.length = 0), if_pos h18]
  refine ⟨hp, ?_⟩
  intro Tx call wait token
  simp [depositCollateral, parseUnitsE, hp, liftOpt, Bind.bind, Except.bind]

set_option maxRecDepth 4000 in
theorem c5_witness :
    parseUnits "1.0000000000000000001" = none :=
  (c5_excess_precision_rejected
    (s := "1.0000000000000000001")
    (by decide : matchDecimal "1.0000000000000000001"
      = some (false, ['1'],
        ['0', '0', '0', '0', '0', '0', '0', '0', '0', '0', '0', '0', '0', '0',
         '0', '0', '0', '0', '1']))
    (by decide)).1

set_option maxRecDepth 4000 in
/-- Claim C7: `getLiquidityPool` returns the position's `amount` as a decimal
string rescaled by 10^18 and `withdrawalTime`/`addedAt` as plain numbers:
for an underlying contract result `{amount: 5*10^18, withdrawalTime: 1000,
addedAt: 2000}` it returns exactly
`{amount: "5.0", withdrawalTime: 1000, addedAt: 2000}`. -/
theorem c7_getLiquidityPool_concrete :
    getLiquidityPool (.ok (5 * 10 ^ 18, 1000, 2000))
      = .ok { amount := "5.0", withdrawalTime := 1000, addedAt := 2000 } := by
  rfl

/-- Claim C2: in `queryFilterEventByAccount`, each log entry is decoded
independently and a failing entry is dropped while every other entry is still
decoded and returned in original log order (the result is the per-entry
filter-map of the batch); in particular, for a 3-entry batch whose 2nd entry
fails to decode, the result is exactly the decoded 1st and 3rd events, in that
order. -/
theorem c2_decode_failure_isolated {Log : Type} (parseLog : Log → ParseLogResult)
    (eventName : String) :
    (∀ logs : List Log,
      queryFilterEventByAccount parseLog eventName logs
        = logs.filterMap (decodeLogEntry parseLog eventName)) ∧
    (∀ (l1 l2 l3 : Log) (e1 e3 : Events),
      decodeLogEntry parseLog eventName l1 = some e1 →
      decodeLogEntry parseLog eventName l2 = none →
      decodeLogEntry parseLog eventName l3 = some e3 →
      queryFilterEventByAccount parseLog eventName [l1, l2, l3] = [e1, e3]) := by
  have hgen : ∀ logs : List Log,
      queryFilterEventByAccount parseLog eventName logs
        = logs.filterMap (decodeLogEntry parseLog eventName) := by
    intro logs
    unfold queryFilterEventByAccount
    rw [List.filterMap_map]
    rfl
  refine ⟨hgen, ?_⟩
  intro l1 l2 l3 e1 e3 h1 h2 h3
  rw [hgen]
  simp [List.filterMap_cons, h1, h2, h3]

set_option maxRecDepth 4000 in
theorem c2_witness :
    queryFilterEventByAccount
      (fun l : Nat =>
        if l = 1 then .ok ⟨"0xA", "0xT", 1000000000000000000, 1700000000⟩
        else if l = 2 then .throws
        else .ok ⟨"0xB", "0xT", 2000000000000000000, 1700000001⟩)
      "Deposit" [1, 2, 3]
      = [⟨"0xA", "0xT", "1.0", 1700000000000, "Deposit"⟩,
         ⟨"0xB", "0xT", "2.0", 1700000001000, "Deposit"⟩] :=
  (c2_decode_failure_isolated _ "Deposit").2 1 2 3 _ _ (by rfl) (by rfl) (by rfl)

/-- Claim C3: `userHealthFactor` never propagates an error to its caller: it
always resolves with a string; on a successful read it resolves with the
fixed-point result rescaled to a decimal string, and on any failure (of the
read, or of the rescaling itself, both inside the `try`) it resolves with the
sentinel "0". -/
theorem c3_userHealthFactor_never_throws (call : Except JsError Int) :
    (∃ s, userHealthFactor call = .ok s) ∧
    (∀ e, call = .error e → userHealthFactor call = .ok "0") ∧
    (∀ v s, call = .ok v → formatUnits 18 v = some s →
      userHealthFactor call = .ok s) := by
  refine ⟨?_, ?_, ?_⟩
  · rcases call with e | v
    · exact ⟨"0", rfl⟩
    · rcases hfv : formatUnits 18 v with _ | s
      · exact ⟨"0", by simp [userHealthFactor, jsTry, formatUnitsE, liftOpt, hfv,
          Bind.bind, Except.bind]⟩
      · exact ⟨s, by simp [userHealthFactor, jsTry, formatUnitsE, liftOpt, hfv,
          Bind.bind, Except.bind]⟩
  · rintro e rfl
    rfl
  · rintro v s rfl hfv
    simp [userHealthFactor, jsTry, formatUnitsE, liftOpt, hfv, Bind.bind, Except.bind]

theorem c3_witness :
    userHealthFactor (.error (.callFailed 500)) = .ok "0" :=
  (c3_userHealthFactor_never_throws (.error (.callFailed 500))).2.1
    (.callFailed 500) rfl

/-- Claim C4: `checkForBrokenHealthFactor` resolves with `true` exactly when
the underlying contract probe call resolves, resolves with `false` when that
call fails for any reason, and never propagates a failure. -/
theorem c4_probe_revert_to_bool (call : Except JsError Unit) :
    (call = .ok () → checkForBrokenHealthFactor call = .ok true) ∧
    (∀ e, call = .error e → checkForBrokenHealthFactor call = .ok false) ∧
    (∃ b, checkForBrokenHealthFactor call = .ok b ∧ (b = true ↔ call = .ok ())) := by
  refine ⟨?_, ?_, ?_⟩
  · rintro rfl
    rfl
  · rintro e rfl
    rfl
  · rcases call with e | u
    · exact ⟨false, rfl, by simp⟩
    · exact ⟨true, rfl, by simp⟩

theorem c4_witness :
    checkForBrokenHealthFactor (.ok ()) = .ok true ∧
      checkForBrokenHealthFactor (.error (.callFailed 3)) = .ok false :=
  ⟨(c4_probe_revert_to_bool (.ok ())).1 rfl,
   (c4_probe_revert_to_bool (.error (.callFailed 3))).2.1 (.callFailed 3) rfl⟩

/-- Claim C9: every event returned by `queryFilterEventByAccount` carries the
on-chain timestamp multiplied by 1000, i.e. a milliseconds value (the
hypothesis bounds the timestamps to the range where the JS `Number`
conversion performed by the code is exact, which covers all on-chain
seconds-since-epoch values). -/
theorem c9_timestamp_milliseconds {Log : Type} (parseLog : Log → ParseLogResult)
    (eventName : String) (logs : List Log)
    (hbound : ∀ l ∈ logs, ∀ args, parseLog l = .ok args →
      0 ≤ args.timeStamp ∧ args.timeStamp * 1000 < 2 ^ 53) :
    ∀ ev ∈ queryFilterEventByAccount parseLog eventName logs,
      ∃ l ∈ logs, ∃ args, parseLog l = .ok args ∧
        ev.timeStamp = args.timeStamp * 1000 ∧
        0 ≤ ev.timeStamp ∧ ev.timeStamp < 2 ^ 53 := by
  intro ev hev
  unfold queryFilterEventByAccount at hev
  rw [List.mem_filterMap] at hev
  obtain ⟨o, ho, hid⟩ := hev
  rw [List.mem_map] at ho
  obtain ⟨l, hl, rfl⟩ := ho
  simp only [id_eq] at hid
  refine ⟨l, hl, ?_⟩
  rcases hpl : parseLog l with args | _ | _ <;> simp only [decodeLogEntry, hpl] at hid
  · rcases hfu : formatUnits 18 args.amount with _ | fa <;> simp only [hfu] at hid
    · cases hid
    · have hts := hbound l hl args hpl
      obtain rfl := Option.some_inj.mp hid
      refine ⟨args, rfl, rfl, ?_, ?_⟩
      · show (0 : Int) ≤ args.timeStamp * 1000
        omega
      · show args.timeStamp * 1000 < 2 ^ 53
        exact hts.2
  · cases hid
  · cases hid

set_option maxRecDepth 4000 in
theorem c9_witness :
    ∃ l ∈ [0], ∃ args,
      (fun _ : Nat =>
          ParseLogResult.ok ⟨"0xU", "0xT", 1000000000000000000, 1700000000⟩) l
        = .ok args ∧
      (⟨"0xU", "0xT", "1.0", 1700000000000, "Borrow"⟩ : Events).timeStamp
        = args.timeStamp * 1000 ∧
      0 ≤ (⟨"0xU", "0xT", "1.0", 1700000000000, "Borrow"⟩ : Events).timeStamp ∧
      (⟨"0xU", "0xT", "1.0", 1700000000000, "Borrow"⟩ : Events).timeStamp < 2 ^ 53 :=
  c9_timestamp_milliseconds
    (fun _ : Nat => .ok ⟨"0xU", "0xT", 1000000000000000000, 1700000000⟩)
    "Borrow" [0]
    (by intro l hl args h; cases h; constructor <;> decide)
    ⟨"0xU", "0xT", "1.0", 1700000000000, "Borrow"⟩
    (by decide)

/-- Claim C6: one run of the Health-Factor Observer's effect never issues a
read while the contract handle or the account is null (returning the previous
published value untouched); when a read is issued and fails, the published
value is also left at its prior value; and the published value changes only
through a successful read with both dependencies present. -/
theorem c6_observer_guards {C : Type} (inp : HookInput C) (prev : Option String) :
    ((inp.contract = none ∨ inp.account = none) →
      useHealthFactorStep inp prev = (false, prev)) ∧
    (∀ c a e, inp.contract = some c → inp.account = some a →
      inp.read c a = .error e → (useHealthFactorStep inp prev).2 = prev) ∧
    ((useHealthFactorStep inp prev).2 ≠ prev →
      (useHealthFactorStep inp prev).1 = true ∧
      ∃ c a s, inp.contract = some c ∧ inp.account = some a ∧ a ≠ "" ∧
        inp.read c a = .ok s ∧ (useHealthFactorStep inp prev).2 = some s) := by
  obtain ⟨oc, oa, rd⟩ := inp
  rcases oc with _ | c
  · refine ⟨fun _ => rfl, ?_, ?_⟩
    · intro c a e hc ha hr
      cases hc
    · intro hne
      exact absurd rfl hne
  · rcases oa with _ | a
    · refine ⟨fun _ => rfl, ?_, ?_⟩
      · intro c' a e hc ha hr
        cases ha
      · intro hne
        exact absurd rfl hne
    · by_cases hae : a = ""
      · subst hae
        refine ⟨?_, ?_, ?_⟩
        · rintro (hc | ha)
          · cases hc
          · cases ha
        · intro c' a' e hc ha hr
          simp [useHealthFactorStep]
        · intro hne
          exact absurd (by simp [useHealthFactorStep]) hne
      · rcases hr : rd c a with e0 | s
        · refine ⟨?_, ?_, ?_⟩
          · rintro (hc | ha)
            · cases hc
            · cases ha
          · intro c' a' e hc ha hre
            simp [useHealthFactorStep, hae, hr]
          · intro hne
            exact absurd (by simp [useHealthFactorStep, hae, hr]) hne
        · refine ⟨?_, ?_, ?_⟩
          · rintro (hc | ha)
            · cases hc
            · cases ha
          · intro c' a' e hc ha hre
            cases hc
            cases ha
            have hre2 : rd c a = Except.error e := hre
            rw [hr] at hre2
            cases hre2
          · intro hne
            refine ⟨by simp [useHealthFactorStep, hae, hr], c, a, s, rfl, rfl, hae,
              hr, by simp [useHealthFactorStep, hae, hr]⟩

theorem c6_witness :
    (useHealthFactorStep (C := Unit)
        ⟨some (), some "0xA", fun _ _ => .error (.callFailed 1)⟩ (some "1.0")).2
      = some "1.0" :=
  (c6_observer_guards ⟨some (), some "0xA", fun _ _ => .error (.callFailed 1)⟩
    (some "1.0")).2.1 () "0xA" (.callFailed 1) rfl rfl rfl

/-- Claim C8: every state-changing operation of the adapter submits its
transaction and awaits `tx.wait()` before resolving: `submitAndWait`
propagates a submission failure, propagates a wait (revert/inclusion)
failure, and resolves with no value when both succeed; and each of the ten
operations (`depositCollateral`, `borrowAsset`, `withdrawCollateralDeposited`,
`repayLoan`, `liquidatePosition`, `addLiquidity`, `withdrawFromLiquidityPool`,
`rebalancePortfolio`, `transferOwnership`, `acceptOwnership`) is exactly the
submit-then-await of its contract call, amount arguments having been scaled
first. -/
theorem c8_state_changing_ops {Tx : Type} (wait : Tx → Except JsError Unit) :
    (∀ submit : Except JsError Tx,
      (∀ e, submit = .error e → submitAndWait submit wait = .error e) ∧
      (∀ tx e, submit = .ok tx → wait tx = .error e →
        submitAndWait submit wait = .error e) ∧
      (∀ tx, submit = .ok tx → wait tx = .ok () →
        submitAndWait submit wait = .ok ())) ∧
    (∀ (call : String → Int → Except JsError Tx) (token amount : String) (n : Int),
      parseUnits amount = some n →
      depositCollateral call wait token amount = submitAndWait (call token n) wait) ∧
    (∀ (call : String → Int → Int → Except JsError Tx) (token amount : String)
      (ts n : Int), parseUnits amount = some n →
      borrowAsset call wait token amount ts = submitAndWait (call token n ts) wait) ∧
    (∀ (call : String → Except JsError Tx) (token : String),
      withdrawCollateralDeposited call wait token = submitAndWait (call token) wait) ∧
    (∀ (call : String → Int → Except JsError Tx) (token amount : String) (n : Int),
      parseUnits amount = some n →
      repayLoan call wait token amount = submitAndWait (call token n) wait) ∧
    (∀ (call : String → String → String → Int → Except JsError Tx)
      (u b c amount : String) (n : Int), parseUnits amount = some n →
      liquidatePosition call wait u b c amount = submitAndWait (call u b c n) wait) ∧
    (∀ (call : String → Int → Int → Except JsError Tx) (token amount : String)
      (wt n : Int), parseUnits amount = some n →
      addLiquidity call wait token amount wt = submitAndWait (call token n wt) wait) ∧
    (∀ (call : String → Except JsError Tx) (token : String),
      withdrawFromLiquidityPool call wait token = submitAndWait (call token) wait) ∧
    (∀ (call : String → String → Int → Except JsError Tx) (sf st amount : String)
      (n : Int), parseUnits amount = some n →
      rebalancePortfolio call wait sf st amount = submitAndWait (call sf st n) wait) ∧
    (∀ (call : String → Except JsError Tx) (newOwner : String),
      transferOwnership call wait newOwner = submitAndWait (call newOwner) wait) ∧
    (∀ call : Except JsError Tx, acceptOwnership call wait = submitAndWait call wait) := by
  refine ⟨?_, ?_, ?_, ?_, ?_, ?_, ?_, ?_, ?_, ?_, ?_⟩
  · intro submit
    refine ⟨?_, ?_, ?_⟩
    · rintro e rfl
      rfl
    · rintro tx e rfl hw
      simp [submitAndWait, Bind.bind, Except.bind, hw]
    · rintro tx rfl hw
      simp [submitAndWait, Bind.bind, Except.bind, hw]
  · intro call token amount n h
    simp [depositCollateral, submitAndWait, parseUnitsE, liftOpt, h,
      Bind.bind, Except.bind]
  · intro call token amount ts n h
    simp [borrowAsset, submitAndWait, parseUnitsE, liftOpt, h,
      Bind.bind, Except.bind]
  · intro call token
    rfl
  · intro call token amount n h
    simp [repayLoan, submitAndWait, parseUnitsE, liftOpt, h,
      Bind.bind, Except.bind]
  · intro call u b c amount n h
    simp [liquidatePosition, submitAndWait, parseUnitsE, liftOpt, h,
      Bind.bind, Except.bind]
  · intro call token amount wt n h
    simp [addLiquidity, submitAndWait, parseUnitsE, liftOpt, h,
      Bind.bind, Except.bind]
  · intro call token
    rfl
  · intro call sf st amount n h
    simp [rebalancePortfolio, submitAndWait, parseUnitsE, liftOpt, h,
      Bind.bind, Except.bind]
  · intro call newOwner
    rfl
  · intro call
    rfl

set_option maxRecDepth 4000 in
theorem c8_witness :
    depositCollateral (fun _ _ => Except.ok ()) (fun _ => Except.ok ()) "0xT" "1.0"
      = submitAndWait (Except.ok ()) (fun _ => Except.ok ()) :=
  (c8_state_changing_ops (fun _ => Except.ok ())).2.1 (fun _ _ => Except.ok ())
    "0xT" "1.0" 1000000000000000000 (by decide)

theorem useHealthFactorStep_none_iff {C : Type} (inp : HookInput C)
    (prev : Option String) :
    (useHealthFactorStep inp prev).2 = none ↔
      prev = none ∧ ∀ c a s, inp.contract = some c → inp.account = some a →
        a ≠ "" → inp.read c a ≠ .ok s := by
  obtain ⟨oc, oa, rd⟩ := inp
  rcases oc with _ | c
  · have hstep : (useHealthFactorStep ⟨none, oa, rd⟩ prev).2 = prev := rfl
    rw [hstep]
    constructor
    · intro h
      refine ⟨h, ?_⟩
      rintro c' a' s hc ha han hok
      cases hc
    · exact fun h => h.1
  · rcases oa with _ | a
    · have hstep : (useHealthFactorStep ⟨some c, none, rd⟩ prev).2 = prev := rfl
      rw [hstep]
      constructor
      · intro h
        refine ⟨h, ?_⟩
        rintro c' a' s hc ha han hok
        cases ha
      · exact fun h => h.1
    · by_cases hae : a = ""
      · subst hae
        have hstep : (useHealthFactorStep ⟨some c, some "", rd⟩ prev).2 = prev := by
          simp [useHealthFactorStep]
        rw [hstep]
        constructor
        · intro h
          refine ⟨h, ?_⟩
          rintro c' a' s hc ha han hok
          cases ha
          exact han rfl
        · exact fun h => h.1
      · rcases hr : rd c a with e0 | s0
        · have hstep : (useHealthFactorStep ⟨some c, some a, rd⟩ prev).2 = prev := by
            simp [useHealthFactorStep, hae, hr]
          rw [hstep]
          constructor
          · intro h
            refine ⟨h, ?_⟩
            rintro c' a' s hc ha han hok
            cases hc
            cases ha
            have hok2 : rd c a = Except.ok s := hok
            rw [hr] at hok2
            cases hok2
          · exact fun h => h.1
        · have hstep : (useHealthFactorStep ⟨some c, some a, rd⟩ prev).2 = some s0 := by
            simp [useHealthFactorStep, hae, hr]
          rw [hstep]
          constructor
          · intro h
            cases h
          · rintro ⟨h1, h2⟩
            exact absurd hr (h2 c a s0 rfl rfl hae)

theorem runHook_foldl_none_iff {C : Type} (inputs : List (HookInput C)) :
    ∀ st : Option String,
      inputs.foldl (fun st inp => (useHealthFactorStep inp st).2) st = none ↔
        st = none ∧ ∀ inp ∈ inputs, ∀ c a s, inp.contract = some c →
          inp.account = some a → a ≠ "" → inp.read c a ≠ .ok s := by
  induction inputs with
  | nil =>
    intro st
    simp
  | cons i t ih =>
    intro st
    rw [List.foldl_cons, ih, useHealthFactorStep_none_iff]
    simp only [List.forall_mem_cons]
    tauto

/-- Claim C10: the Observer's exposed `healthFactor` starts as null, is null
after a sequence of effect runs exactly when no run in the sequence performed
a successful read with both dependencies present (so it stays null until the
first successful read), and no single run ever takes a non-null published
value back to null. -/
theorem c10_healthFactor_null_monotone {C : Type} :
    hookInitialState = none ∧
    (∀ inputs : List (HookInput C),
      runHook inputs = none ↔
        ∀ inp ∈ inputs, ∀ c a s, inp.contract = some c → inp.account = some a →
          a ≠ "" → inp.read c a ≠ .ok s) ∧
    (∀ (inp : HookInput C) (prev : Option String), prev ≠ none →
      (useHealthFactorStep inp prev).2 ≠ none) := by
  refine ⟨rfl, ?_, ?_⟩
  · intro inputs
    unfold runHook
    rw [runHook_foldl_none_iff]
    simp [hookInitialState]
  · intro inp prev hprev hcon
    rw [useHealthFactorStep_none_iff] at hcon
    exact hprev hcon.1

theorem c10_witness :
    runHook (C := Unit) [⟨some (), some "0xA", fun _ _ => .ok "1.5"⟩] ≠ none := by
  intro hcon
  have h := ((c10_healthFactor_null_monotone (C := Unit)).2.1
    [⟨some (), some "0xA", fun _ _ => .ok "1.5"⟩]).mp hcon
  exact h _ (List.mem_singleton.mpr rfl) () "0xA" "1.5" rfl rfl (by decide) rfl

end ScrollLend
